import Mathlib

/-!
Verification of the procedural rose-geometry repository.

The development shallowly embeds the geometry-synthesis core of the
repository:

* `mergeGeometries` — the mesh merge engine (`mergeGeometries` in the
  source): it concatenates a list of buffer geometries into flat
  position / normal / uv / index arrays, writing each input's data at a
  running vertex/index offset into zero-initialised arrays, exactly as the
  source does with `Float32Array` / `Uint32Array` and `TypedArray.set`.
  Scalars are modelled as `ℚ` (the values are only ever copied, never
  combined arithmetically, so rationals are exact); indices are `ℕ`
  (the `Uint32Array` wrap at 2^32 is unreachable: allocating the position
  array fails long before a vertex count of 2^32 can occur).
  A geometry lacking a position attribute makes the source throw while
  reading `geo.attributes.position.count`; this is modelled with `Except`.
* the petal phyllotaxis of `FlowerHead` (golden-angle schedule),
* the petal width envelope of `createPetalGeometry`,
* the thorn parameter clamping and the curve-frame construction of `Stem`.
-/

/-- Model of a `THREE.BufferGeometry` as consumed by `mergeGeometries`:
optional position / normal / uv attributes (per-vertex tuples) and an
optional index list.  `none` models a missing attribute / `null` index. -/
structure BufferGeometry where
  position : Option (List (ℚ × ℚ × ℚ))
  normal : Option (List (ℚ × ℚ × ℚ))
  uv : Option (List (ℚ × ℚ))
  index : Option (List ℕ)

/-- Flatten a list of 3-component vertices into the flat array layout used
by `Float32Array` buffers (x, y, z, x, y, z, ...). -/
def flat3 (l : List (ℚ × ℚ × ℚ)) : List ℚ :=
  l.flatMap (fun p => [p.1, p.2.1, p.2.2])

/-- Flatten a list of 2-component uv pairs into flat array layout. -/
def flat2 (l : List (ℚ × ℚ)) : List ℚ :=
  l.flatMap (fun p => [p.1, p.2])

/-- Model of `geo.attributes.position.count` (0 when the attribute is absent; the
source only reads it in contexts where it is present). -/
def posCount (g : BufferGeometry) : ℕ :=
  (g.position.getD []).length

/-- The number of indices an input contributes: its index count when
indexed, else its vertex count (source lines 67–71). -/
def idxCount (g : BufferGeometry) : ℕ :=
  match g.index with
  | some l => l.length
  | none => posCount g

/-- The `totalVertices` accumulated by the first loop of `mergeGeometries`. -/
def totalVertices (gs : List BufferGeometry) : ℕ :=
  (gs.map posCount).sum

/-- The `totalIndices` accumulated by the first loop of `mergeGeometries`. -/
def totalIndices (gs : List BufferGeometry) : ℕ :=
  (gs.map idxCount).sum

/-- Model of `TypedArray.set(src, off)`: overwrite `arr` starting at `off` with the
elements of `src`. -/
def listSet {α : Type} (arr src : List α) (off : ℕ) : List α :=
  arr.take off ++ src ++ arr.drop (off + src.length)

/-- The default-normal loop of `mergeGeometries` (source lines 92–94):
for `k < n`, write `1.0` into slot `(vOff + k) * 3 + 1` (the y component),
leaving the zero-initialised x and z components untouched. -/
def setOnes (arr : List ℚ) (vOff n : ℕ) : List ℚ :=
  (List.range n).foldl (fun a k => a.set ((vOff + k) * 3 + 1) 1) arr

/-- The mutable state threaded through the second loop of
`mergeGeometries`: the four output arrays plus the running offsets. -/
@[ext]
structure MergeState where
  positionArr : List ℚ
  normalArr : List ℚ
  uvArr : List ℚ
  indicesArr : List ℕ
  vertexOffset : ℕ
  indexOffset : ℕ

/-- One iteration of the second loop of `mergeGeometries` (source lines
82–112): copy positions; copy normals or default the y components to 1;
copy uvs if present; copy offset indices or emit a sequential run; then
advance both offsets.  (The `if (pos)` guard of the source is represented
by the `match` on `g.position`; when the attribute is absent the source
has already thrown in the first loop, so this branch is unreachable in
`mergeGeometries` itself.) -/
def mergeStep (s : MergeState) (g : BufferGeometry) : MergeState :=
  let pos := g.position.getD []
  { positionArr :=
      match g.position with
      | some p => listSet s.positionArr (flat3 p) (s.vertexOffset * 3)
      | none => s.positionArr
    normalArr :=
      match g.normal with
      | some nl => listSet s.normalArr (flat3 nl) (s.vertexOffset * 3)
      | none => setOnes s.normalArr s.vertexOffset pos.length
    uvArr :=
      match g.uv with
      | some u => listSet s.uvArr (flat2 u) (s.vertexOffset * 2)
      | none => s.uvArr
    indicesArr :=
      match g.index with
      | some l => listSet s.indicesArr (l.map (· + s.vertexOffset)) s.indexOffset
      | none =>
          listSet s.indicesArr ((List.range pos.length).map (· + s.vertexOffset))
            s.indexOffset
    vertexOffset := s.vertexOffset + pos.length
    indexOffset := s.indexOffset + idxCount g }

/-- The merged geometry built at the end of `mergeGeometries`: the four
flat arrays installed as buffer attributes (position/normal stride 3,
uv stride 2, index stride 1). -/
structure MergedGeometry where
  positionArr : List ℚ
  normalArr : List ℚ
  uvArr : List ℚ
  indicesArr : List ℕ
deriving DecidableEq

/-- The `BufferAttribute.count` of the merged position attribute. -/
def MergedGeometry.vertexCount (m : MergedGeometry) : ℕ :=
  m.positionArr.length / 3

/-- The mesh merge engine (source lines 59–121).  An empty input list
returns a fresh empty geometry.  Otherwise the first loop reads
`geo.attributes.position.count` for every input — throwing (modelled as
`Except.error`) if any input lacks a position attribute — to size the
output arrays; the second loop copies every input at its running offsets
into zero-initialised arrays. -/
def mergeGeometries (gs : List BufferGeometry) : Except Unit MergedGeometry :=
  if gs.isEmpty then .ok ⟨[], [], [], []⟩
  else if gs.all (fun g => g.position.isSome) then
    let tv := totalVertices gs
    let ti := totalIndices gs
    let s0 : MergeState :=
      ⟨List.replicate (tv * 3) 0, List.replicate (tv * 3) 0,
       List.replicate (tv * 2) 0, List.replicate ti 0, 0, 0⟩
    let s := gs.foldl mergeStep s0
    .ok ⟨s.positionArr, s.normalArr, s.uvArr, s.indicesArr⟩
  else .error ()

/-- Well-formedness of an input as a Mesh Buffer: it has a position
attribute; normal/uv attributes, when present, are per-vertex (same count
as positions); every index refers to one of its own vertices. -/
def wellFormed (g : BufferGeometry) : Bool :=
  g.position.isSome &&
  (match g.normal with
   | some nl => nl.length == posCount g
   | none => true) &&
  (match g.uv with
   | some u => u.length == posCount g
   | none => true) &&
  (match g.index with
   | some l => l.all (fun j => decide (j < posCount g))
   | none => true)

/-- The flat position data contributed by one input. -/
def posContrib (g : BufferGeometry) : List ℚ :=
  flat3 (g.position.getD [])

/-- Flat array holding `n` copies of the default normal `(0, 1, 0)`. -/
def norms3 (n : ℕ) : List ℚ :=
  flat3 (List.replicate n (0, 1, 0))

/-- The flat normal data contributed by one input: its normals verbatim,
or the default normal `(0,1,0)` for each of its vertices. -/
def normContrib (g : BufferGeometry) : List ℚ :=
  match g.normal with
  | some nl => flat3 nl
  | none => norms3 (posCount g)

/-- The flat uv data contributed by one input: its uvs verbatim, or
zero-filled slots. -/
def uvContrib (g : BufferGeometry) : List ℚ :=
  match g.uv with
  | some u => flat2 u
  | none => List.replicate (posCount g * 2) 0

/-- The index data contributed by one input placed at vertex offset
`vOff`: its own indices shifted by `vOff`, or the sequential run
`vOff, vOff+1, ...` over its vertices. -/
def idxContrib (vOff : ℕ) (g : BufferGeometry) : List ℕ :=
  match g.index with
  | some l => l.map (· + vOff)
  | none => (List.range (posCount g)).map (· + vOff)

/-- Characterisation of the merged position array: the concatenation of
the inputs' flat position data. -/
def mergedPositionsSpec (gs : List BufferGeometry) : List ℚ :=
  gs.flatMap posContrib

/-- Characterisation of the merged normal array. -/
def mergedNormalsSpec (gs : List BufferGeometry) : List ℚ :=
  gs.flatMap normContrib

/-- Characterisation of the merged uv array. -/
def mergedUvsSpec (gs : List BufferGeometry) : List ℚ :=
  gs.flatMap uvContrib

/-- Characterisation of the merged index array, starting from vertex
offset `vOff`. -/
def mergedIndicesSpec : ℕ → List BufferGeometry → List ℕ
  | _, [] => []
  | vOff, g :: gs => idxContrib vOff g ++ mergedIndicesSpec (vOff + posCount g) gs

/-- Mirror of the `tripleShaped` condition of the index-list shape: an
indexed input contributes `index.count` indices, a non-indexed one
`position.count`, so the triangle-triple shape of the output requires the
relevant count of each input to be a multiple of 3. -/
def tripleShaped (g : BufferGeometry) : Bool :=
  match g.index with
  | some l => l.length % 3 == 0
  | none => posCount g % 3 == 0

/-- The `goldenAngle` of `FlowerHead` (source line 384): 137.5° in radians. -/
noncomputable def goldenAngle : ℝ :=
  137.5 * (Real.pi / 180)

/-- The `totalPetals` of `FlowerHead` (source line 385). -/
def totalPetals : ℕ := 22

/-- Petal angle `theta = i * goldenAngle` (source line 388). -/
noncomputable def petalTheta (i : ℕ) : ℝ :=
  i * goldenAngle

/-- Petal yaw `rotY = -theta - Math.PI / 2` (source line 398). -/
noncomputable def petalRotY (i : ℕ) : ℝ :=
  -petalTheta i - Real.pi / 2

/-- The petal width envelope of `createPetalGeometry` (source lines
133–135): `shapeWidth = sin(v·π·0.85)`, then
`shapeWidth = pow(max(0, shapeWidth), 0.4)`, then
`shapeWidth *= min(1.0, v·3.5)`. -/
noncomputable def shapeWidth (v : ℝ) : ℝ :=
  max 0 (Real.sin (v * Real.pi * 0.85)) ^ (0.4 : ℝ) * min 1 (v * 3.5)

/-- The `thornCount` of `Stem` (source line 529). -/
def thornCount : ℕ := 20

/-- Thorn base parameter `tBase = 0.15 + (i / thornCount) * 0.83` (source line 533).  The
arithmetic is exact in `ℚ`. -/
def thornTBase (i : ℕ) : ℚ :=
  0.15 + ((i : ℚ) / thornCount) * 0.83

/-- Clamped thorn parameter `t = Math.max(0.12, Math.min(0.99, tBase + tJitter))` (source line
535), with the jitter as an explicit parameter. -/
def thornT (i : ℕ) (jitter : ℚ) : ℚ :=
  max 0.12 (min 0.99 (thornTBase i + jitter))

/-- A `THREE.Vector3` with real components. -/
@[ext]
structure Vec3 where
  x : ℝ
  y : ℝ
  z : ℝ

/-- Model of `Vector3.dot`. -/
def dotV (a b : Vec3) : ℝ :=
  a.x * b.x + a.y * b.y + a.z * b.z

/-- Model of `Vector3.cross`. -/
def crossV (a b : Vec3) : Vec3 :=
  ⟨a.y * b.z - a.z * b.y, a.z * b.x - a.x * b.z, a.x * b.y - a.y * b.x⟩

/-- Model of `Vector3.length`. -/
noncomputable def lengthV (v : Vec3) : ℝ :=
  Real.sqrt (dotV v v)

/-- Model of `Vector3.normalize`: `divideScalar(length() || 1)` — division by the
length, with 1 substituted when the length is zero. -/
noncomputable def normalizeV (v : Vec3) : Vec3 :=
  let l := if lengthV v = 0 then 1 else lengthV v
  ⟨v.x / l, v.y / l, v.z / l⟩

/-- A `THREE.Quaternion`. -/
structure Quat where
  x : ℝ
  y : ℝ
  z : ℝ
  w : ℝ

/-- Model of `Quaternion.setFromAxisAngle` (axis assumed normalised): components
`axis * sin(angle/2)` and scalar part `cos(angle/2)`. -/
noncomputable def setFromAxisAngle (axis : Vec3) (angle : ℝ) : Quat :=
  ⟨axis.x * Real.sin (angle / 2), axis.y * Real.sin (angle / 2),
   axis.z * Real.sin (angle / 2), Real.cos (angle / 2)⟩

/-- Model of `Vector3.applyQuaternion`, exactly as in the three.js source:
`t = 2 * cross(q, v)`, result `v + q.w * t + cross(q, t)`. -/
def applyQuaternion (v : Vec3) (q : Quat) : Vec3 :=
  let tx := 2 * (q.y * v.z - q.z * v.y)
  let ty := 2 * (q.z * v.x - q.x * v.z)
  let tz := 2 * (q.x * v.y - q.y * v.x)
  ⟨v.x + q.w * tx + q.y * tz - q.z * ty,
   v.y + q.w * ty + q.z * tx - q.x * tz,
   v.z + q.w * tz + q.x * ty - q.y * tx⟩

/-- Model of `Vector3.applyAxisAngle(axis, angle)`. -/
noncomputable def applyAxisAngle (v axis : Vec3) (angle : ℝ) : Vec3 :=
  applyQuaternion v (setFromAxisAngle axis angle)

/-- Degenerate-tangent fallback of `Stem` (source line 539):
`if (tangent.lengthSq() < 0.1) tangent = new Vector3(0, -1, 0)`. -/
noncomputable def fixTangent (t : Vec3) : Vec3 :=
  if dotV t t < 0.1 then ⟨0, -1, 0⟩ else t

/-- Reference-up selection of `Stem` (source lines 542–543): the world
vertical axis, replaced by the world z axis when `|tangent.y| > 0.9`. -/
noncomputable def thornUp (t : Vec3) : Vec3 :=
  if 0.9 < |t.y| then ⟨0, 0, 1⟩ else ⟨0, 1, 0⟩

/-- The `binormal = cross(tangent, up).normalize()` of source line 544. -/
noncomputable def thornBinormal (t : Vec3) : Vec3 :=
  normalizeV (crossV (fixTangent t) (thornUp (fixTangent t)))

/-- The placement normal `binormal.applyAxisAngle(tangent, angle).normalize()`
(source line 545). -/
noncomputable def thornNormal (t : Vec3) (angle : ℝ) : Vec3 :=
  normalizeV (applyAxisAngle (thornBinormal t) (fixTangent t) angle)

/-- The `xAxis = cross(yAxis, zAxisApprox).normalize()` with `yAxis` the
placement normal and `zAxisApprox = -tangent` (source lines 549–551). -/
noncomputable def thornXAxis (t : Vec3) (angle : ℝ) : Vec3 :=
  normalizeV (crossV (thornNormal t angle)
    ⟨-(fixTangent t).x, -(fixTangent t).y, -(fixTangent t).z⟩)

/-- The `zAxis = cross(xAxis, yAxis).normalize()` of source line 552. -/
noncomputable def thornZAxis (t : Vec3) (angle : ℝ) : Vec3 :=
  normalizeV (crossV (thornXAxis t angle) (thornNormal t angle))

/-- The basis `{x̂, ŷ, ẑ}` built for one thorn instance (source lines
549–554): `ŷ` is the rotated radial normal. -/
noncomputable def thornFrame (t : Vec3) (angle : ℝ) : Vec3 × Vec3 × Vec3 :=
  (thornXAxis t angle, thornNormal t angle, thornZAxis t angle)

/-- First input of the §8 merge scenario: 4 vertices, 2 indexed
triangles (6 indices). -/
def mergeExampleG1 : BufferGeometry :=
  ⟨some [(0, 0, 0), (1, 0, 0), (0, 1, 0), (1, 1, 0)], none, none,
   some [0, 1, 2, 2, 1, 3]⟩

/-- Second input of the §8 merge scenario: 3 vertices, no index buffer. -/
def mergeExampleG2 : BufferGeometry :=
  ⟨some [(5, 0, 0), (6, 0, 0), (5, 1, 0)], none, none, none⟩

/-- Concrete indexed input used to witness general merge theorems. -/
def c1G1 : BufferGeometry :=
  ⟨some [(0, 0, 0), (1, 0, 0), (0, 1, 0)], some [(0, 0, 1), (0, 0, 1), (0, 0, 1)],
   none, some [0, 1, 2, 2, 1, 0]⟩

/-- Concrete non-indexed input used to witness general merge theorems. -/
def c1G2 : BufferGeometry :=
  ⟨some [(2, 0, 0), (3, 0, 0)], none, some [(0, 0), (1, 1)], none⟩

/-- Concrete indexed triangle used in the C3 witness. -/
def c3G1 : BufferGeometry :=
  ⟨some [(0, 0, 0), (1, 0, 0), (0, 1, 0)], none, none, some [0, 1, 2]⟩

/-- Concrete input with normals and uvs used in the C3 witness. -/
def c3G2 : BufferGeometry :=
  ⟨some [(2, 0, 0), (3, 0, 0)], some [(1, 0, 0), (1, 0, 0)],
   some [(0, 1), (1, 0)], none⟩

/-- Concrete triple-shaped indexed input for the C10 witness. -/
def c10G1 : BufferGeometry :=
  ⟨some [(0, 0, 0), (1, 0, 0), (0, 1, 0)], none, none, some [0, 1, 2]⟩

/-- Concrete non-indexed input with 4 vertices (not a multiple of 3) for
the C10 witness. -/
def c10G2 : BufferGeometry :=
  ⟨some [(0, 0, 0), (1, 0, 0), (0, 1, 0), (1, 1, 0)], none, none, none⟩

/-- Merged result of `[c10G1]`. -/
def c10MA : MergedGeometry :=
  ⟨[0, 0, 0, 1, 0, 0, 0, 1, 0],
   [0, 1, 0, 0, 1, 0, 0, 1, 0],
   [0, 0, 0, 0, 0, 0],
   [0, 1, 2]⟩

/-- Merged result of `[c10G1, c10G2]`. -/
def c10MB : MergedGeometry :=
  ⟨[0, 0, 0, 1, 0, 0, 0, 1, 0, 0, 0, 0, 1, 0, 0, 0, 1, 0, 1, 1, 0],
   [0, 1, 0, 0, 1, 0, 0, 1, 0, 0, 1, 0, 0, 1, 0, 0, 1, 0, 0, 1, 0],
   [0, 0, 0, 0, 0, 0, 0, 0, 0, 0, 0, 0, 0, 0],
   [0, 1, 2, 3, 4, 5, 6]⟩

theorem length_flat3 (l : List (ℚ × ℚ × ℚ)) : (flat3 l).length = l.length * 3 := by
  induction l with
  | nil => simp [flat3]
  | cons a l ih => simp [flat3, List.flatMap_cons] at ih ⊢; omega

theorem length_flat2 (l : List (ℚ × ℚ)) : (flat2 l).length = l.length * 2 := by
  induction l with
  | nil => simp [flat2]
  | cons a l ih => simp [flat2, List.flatMap_cons] at ih ⊢; omega

theorem length_norms3 (n : ℕ) : (norms3 n).length = n * 3 := by
  simp [norms3, length_flat3]

theorem norms3_succ (n : ℕ) : norms3 (n + 1) = norms3 n ++ [0, 1, 0] := by
  simp [norms3, List.replicate_succ', flat3]

theorem listSet_exact {α : Type} (a b src : List α) (off : ℕ) (hoff : off = a.length) :
    listSet (a ++ b) src off = a ++ src ++ b.drop src.length := by
  subst hoff
  unfold listSet
  rw [List.take_left, ← List.drop_append src.length, List.append_assoc]

theorem listSet_snoc_one (x b : List ℚ) (i : ℕ) (hi : i = x.length + 1) :
    (x ++ (0 :: 0 :: 0 :: b)).set i 1 = x ++ (0 :: 1 :: 0 :: b) := by
  subst hi
  rw [List.set_append]
  simp

theorem setOnes_spec : ∀ (n : ℕ) (a b : List ℚ) (vOff : ℕ), a.length = vOff * 3 →
    setOnes (a ++ (List.replicate (n * 3) 0 ++ b)) vOff n = a ++ (norms3 n ++ b) := by
  intro n
  induction n with
  | zero => intro a b vOff _; simp [setOnes, norms3, flat3]
  | succ n ih =>
      intro a b vOff ha
      have hsplit : List.replicate ((n + 1) * 3) (0 : ℚ) ++ b
          = List.replicate (n * 3) 0 ++ (0 :: 0 :: 0 :: b) := by
        have h3 : (n + 1) * 3 = n * 3 + 3 := by ring
        rw [h3, List.replicate_add, List.append_assoc]
        rfl
      have hfold : ∀ arr : List ℚ, setOnes arr vOff (n + 1)
          = (setOnes arr vOff n).set ((vOff + n) * 3 + 1) 1 := by
        intro arr
        simp [setOnes, List.range_succ, List.foldl_append]
      rw [hsplit, hfold, ih a (0 :: 0 :: 0 :: b) vOff ha,
        ← List.append_assoc a (norms3 n)]
      rw [listSet_snoc_one (a ++ norms3 n) b ((vOff + n) * 3 + 1)
        (by simp [length_norms3, ha]; ring)]
      simp [norms3_succ]

theorem drop_replicate_exact {α : Type} (x : α) (m n k : ℕ) (h : k = m) :
    (List.replicate (m + n) x).drop k = List.replicate n x := by
  subst h
  rw [List.drop_replicate]
  congr 1
  omega

theorem listSet_prefix {α : Type} (pre src : List α) (z : α) (cLen rest off : ℕ)
    (hoff : off = pre.length) (hsrc : src.length = cLen) :
    listSet (pre ++ List.replicate (cLen + rest) z) src off
      = (pre ++ src) ++ List.replicate rest z := by
  rw [listSet_exact pre _ src off hoff, hsrc,
    drop_replicate_exact z cLen rest cLen rfl, List.append_assoc]

theorem wellFormed_parts {g : BufferGeometry} (h : wellFormed g = true) :
    g.position.isSome = true ∧
    (∀ nl, g.normal = some nl → nl.length = posCount g) ∧
    (∀ u, g.uv = some u → u.length = posCount g) ∧
    (∀ l, g.index = some l → ∀ j ∈ l, j < posCount g) := by
  simp only [wellFormed, Bool.and_eq_true] at h
  obtain ⟨⟨⟨h1, h2⟩, h3⟩, h4⟩ := h
  refine ⟨h1, ?_, ?_, ?_⟩
  · intro nl hnl
    rw [hnl] at h2
    simpa using h2
  · intro u hu
    rw [hu] at h3
    simpa using h3
  · intro l hl
    rw [hl] at h4
    simpa using h4

theorem mergeStep_vertexOffset (s : MergeState) (g : BufferGeometry) :
    (mergeStep s g).vertexOffset = s.vertexOffset + posCount g := by
  simp [mergeStep, posCount]

theorem mergeStep_indexOffset (s : MergeState) (g : BufferGeometry) :
    (mergeStep s g).indexOffset = s.indexOffset + idxCount g := rfl

theorem mergeStep_positionArr (s : MergeState) (g : BufferGeometry)
    (p : List (ℚ × ℚ × ℚ)) (hp : g.position = some p) :
    (mergeStep s g).positionArr = listSet s.positionArr (flat3 p) (s.vertexOffset * 3) := by
  simp [mergeStep, hp]

theorem mergeStep_normalArr_some (s : MergeState) (g : BufferGeometry)
    (nl : List (ℚ × ℚ × ℚ)) (hn : g.normal = some nl) :
    (mergeStep s g).normalArr = listSet s.normalArr (flat3 nl) (s.vertexOffset * 3) := by
  simp [mergeStep, hn]

theorem mergeStep_normalArr_none (s : MergeState) (g : BufferGeometry)
    (hn : g.normal = none) :
    (mergeStep s g).normalArr = setOnes s.normalArr s.vertexOffset (posCount g) := by
  simp [mergeStep, hn, posCount]

theorem mergeStep_uvArr_some (s : MergeState) (g : BufferGeometry)
    (u : List (ℚ × ℚ)) (hu : g.uv = some u) :
    (mergeStep s g).uvArr = listSet s.uvArr (flat2 u) (s.vertexOffset * 2) := by
  simp [mergeStep, hu]

theorem mergeStep_uvArr_none (s : MergeState) (g : BufferGeometry)
    (hu : g.uv = none) :
    (mergeStep s g).uvArr = s.uvArr := by
  simp [mergeStep, hu]

theorem mergeStep_indicesArr (s : MergeState) (g : BufferGeometry) :
    (mergeStep s g).indicesArr = listSet s.indicesArr (idxContrib s.vertexOffset g) s.indexOffset := by
  cases hi : g.index with
  | none => simp [mergeStep, hi, idxContrib, posCount]
  | some l => simp [mergeStep, hi, idxContrib]

theorem length_normContrib (g : BufferGeometry)
    (h : ∀ nl, g.normal = some nl → nl.length = posCount g) :
    (normContrib g).length = posCount g * 3 := by
  cases hn : g.normal with
  | none => simp [normContrib, hn, length_norms3]
  | some nl => simp [normContrib, hn, length_flat3, h nl hn]

theorem length_uvContrib (g : BufferGeometry)
    (h : ∀ u, g.uv = some u → u.length = posCount g) :
    (uvContrib g).length = posCount g * 2 := by
  cases hu : g.uv with
  | none => simp [uvContrib, hu]
  | some u => simp [uvContrib, hu, length_flat2, h u hu]

theorem length_posContrib (g : BufferGeometry) :
    (posContrib g).length = posCount g * 3 := by
  simp [posContrib, posCount, length_flat3]

theorem length_idxContrib (vOff : ℕ) (g : BufferGeometry) :
    (idxContrib vOff g).length = idxCount g := by
  cases hi : g.index with
  | none => simp [idxContrib, idxCount, hi]
  | some l => simp [idxContrib, idxCount, hi]

theorem mergeLoop_spec :
    ∀ (gs : List BufferGeometry) (pPos pNorm pUv : List ℚ) (pIdx : List ℕ)
      (vOff iOff : ℕ),
    (∀ g ∈ gs, wellFormed g = true) →
    pPos.length = vOff * 3 → pNorm.length = vOff * 3 →
    pUv.length = vOff * 2 → pIdx.length = iOff →
    List.foldl mergeStep
      ⟨pPos ++ List.replicate (totalVertices gs * 3) 0,
       pNorm ++ List.replicate (totalVertices gs * 3) 0,
       pUv ++ List.replicate (totalVertices gs * 2) 0,
       pIdx ++ List.replicate (totalIndices gs) 0, vOff, iOff⟩ gs
      = ⟨pPos ++ mergedPositionsSpec gs, pNorm ++ mergedNormalsSpec gs,
         pUv ++ mergedUvsSpec gs, pIdx ++ mergedIndicesSpec vOff gs,
         vOff + totalVertices gs, iOff + totalIndices gs⟩ := by
  intro gs
  induction gs with
  | nil =>
      intro pPos pNorm pUv pIdx vOff iOff hwf hpp hpn hpu hpi
      simp [totalVertices, totalIndices, mergedPositionsSpec, mergedNormalsSpec,
        mergedUvsSpec, mergedIndicesSpec]
  | cons g gs ih =>
      intro pPos pNorm pUv pIdx vOff iOff hwf hpp hpn hpu hpi
      obtain ⟨hpos, hnorm, huv, hidx⟩ := wellFormed_parts (hwf g (by simp))
      obtain ⟨p, hp⟩ := Option.isSome_iff_exists.mp hpos
      have hc : posCount g = p.length := by simp [posCount, hp]
      have hTV : totalVertices (g :: gs) = posCount g + totalVertices gs := by
        simp [totalVertices]
      have hTI : totalIndices (g :: gs) = idxCount g + totalIndices gs := by
        simp [totalIndices]
      have h3 : totalVertices (g :: gs) * 3 = posCount g * 3 + totalVertices gs * 3 := by
        rw [hTV]; ring
      have h2 : totalVertices (g :: gs) * 2 = posCount g * 2 + totalVertices gs * 2 := by
        rw [hTV]; ring
      set S : MergeState :=
        ⟨pPos ++ List.replicate (totalVertices (g :: gs) * 3) 0,
         pNorm ++ List.replicate (totalVertices (g :: gs) * 3) 0,
         pUv ++ List.replicate (totalVertices (g :: gs) * 2) 0,
         pIdx ++ List.replicate (totalIndices (g :: gs)) 0, vOff, iOff⟩ with hS
      have hSpos : S.positionArr = pPos ++ List.replicate (totalVertices (g :: gs) * 3) 0 := rfl
      have hSnorm : S.normalArr = pNorm ++ List.replicate (totalVertices (g :: gs) * 3) 0 := rfl
      have hSuv : S.uvArr = pUv ++ List.replicate (totalVertices (g :: gs) * 2) 0 := rfl
      have hSidx : S.indicesArr = pIdx ++ List.replicate (totalIndices (g :: gs)) 0 := rfl
      have hSv : S.vertexOffset = vOff := rfl
      have hSi : S.indexOffset = iOff := rfl
      have hstep : mergeStep S g =
          ⟨(pPos ++ posContrib g) ++ List.replicate (totalVertices gs * 3) 0,
           (pNorm ++ normContrib g) ++ List.replicate (totalVertices gs * 3) 0,
           (pUv ++ uvContrib g) ++ List.replicate (totalVertices gs * 2) 0,
           (pIdx ++ idxContrib vOff g) ++ List.replicate (totalIndices gs) 0,
           vOff + posCount g, iOff + idxCount g⟩ := by
        refine MergeState.ext ?_ ?_ ?_ ?_ ?_ ?_
        · rw [mergeStep_positionArr S g p hp, hSpos, hSv, h3,
            listSet_prefix pPos (flat3 p) 0 (posCount g * 3) (totalVertices gs * 3)
              (vOff * 3) (by omega) (by rw [length_flat3, hc])]
          simp [posContrib, hp]
        · cases hn : g.normal with
          | some nl =>
              rw [mergeStep_normalArr_some S g nl hn, hSnorm, hSv, h3,
                listSet_prefix pNorm (flat3 nl) 0 (posCount g * 3) (totalVertices gs * 3)
                  (vOff * 3) (by omega) (by rw [length_flat3, hnorm nl hn])]
              simp [normContrib, hn]
          | none =>
              rw [mergeStep_normalArr_none S g hn, hSnorm, hSv, h3,
                List.replicate_add, List.append_assoc,
                setOnes_spec (posCount g) pNorm
                  (List.replicate (totalVertices gs * 3) 0) vOff hpn]
              simp [normContrib, hn]
        · cases hu : g.uv with
          | some u =>
              rw [mergeStep_uvArr_some S g u hu, hSuv, hSv, h2,
                listSet_prefix pUv (flat2 u) 0 (posCount g * 2) (totalVertices gs * 2)
                  (vOff * 2) (by omega) (by rw [length_flat2, huv u hu])]
              simp [uvContrib, hu]
          | none =>
              rw [mergeStep_uvArr_none S g hu, hSuv, h2, List.replicate_add]
              simp [uvContrib, hu, List.append_assoc]
        · rw [mergeStep_indicesArr S g, hSidx, hSv, hSi, hTI,
            listSet_prefix pIdx (idxContrib vOff g) 0 (idxCount g) (totalIndices gs)
              iOff (by omega) (length_idxContrib vOff g)]
        · rw [mergeStep_vertexOffset, hSv]
        · rw [mergeStep_indexOffset, hSi]
      rw [List.foldl_cons, hstep,
        ih (pPos ++ posContrib g) (pNorm ++ normContrib g) (pUv ++ uvContrib g)
          (pIdx ++ idxContrib vOff g) (vOff + posCount g) (iOff + idxCount g)
          (fun g' hg' => hwf g' (by simp [hg']))
          (by rw [List.length_append, length_posContrib, hpp]; ring)
          (by rw [List.length_append, length_normContrib g hnorm, hpn]; ring)
          (by rw [List.length_append, length_uvContrib g huv, hpu]; ring)
          (by rw [List.length_append, length_idxContrib, hpi])]
      refine MergeState.ext ?_ ?_ ?_ ?_ ?_ ?_ <;>
        simp [mergedPositionsSpec, mergedNormalsSpec, mergedUvsSpec,
          mergedIndicesSpec, List.flatMap_cons, List.append_assoc, hTV, hTI] <;>
        omega

theorem mergeGeometries_ok (gs : List BufferGeometry)
    (hwf : ∀ g ∈ gs, wellFormed g = true) :
    mergeGeometries gs = .ok ⟨mergedPositionsSpec gs, mergedNormalsSpec gs,
      mergedUvsSpec gs, mergedIndicesSpec 0 gs⟩ := by
  cases gs with
  | nil =>
      simp [mergeGeometries, mergedPositionsSpec, mergedNormalsSpec,
        mergedUvsSpec, mergedIndicesSpec]
  | cons g gs =>
      have hall : (g :: gs).all (fun g => g.position.isSome) = true := by
        rw [List.all_eq_true]
        intro g' hg'
        exact (wellFormed_parts (hwf g' hg')).1
      have hfold := mergeLoop_spec (g :: gs) [] [] [] [] 0 0 hwf rfl rfl rfl rfl
      simp only [List.nil_append] at hfold
      simp only [mergeGeometries, List.isEmpty_cons, Bool.false_eq_true,
        if_false, hall, if_true]
      rw [hfold]

theorem length_mergedPositionsSpec (gs : List BufferGeometry) :
    (mergedPositionsSpec gs).length = totalVertices gs * 3 := by
  induction gs with
  | nil => simp [mergedPositionsSpec, totalVertices]
  | cons g gs ih =>
      simp only [mergedPositionsSpec, List.flatMap_cons, List.length_append] at ih ⊢
      rw [length_posContrib, ih]
      simp [totalVertices]
      ring

theorem length_mergedIndicesSpec (gs : List BufferGeometry) :
    ∀ vOff, (mergedIndicesSpec vOff gs).length = totalIndices gs := by
  induction gs with
  | nil => intro vOff; simp [mergedIndicesSpec, totalIndices]
  | cons g gs ih =>
      intro vOff
      simp only [mergedIndicesSpec, List.length_append, length_idxContrib, ih]
      simp [totalIndices]

theorem mergedIndicesSpec_bound (gs : List BufferGeometry) :
    ∀ vOff, (∀ g ∈ gs, wellFormed g = true) →
    ∀ i ∈ mergedIndicesSpec vOff gs, i < vOff + totalVertices gs := by
  induction gs with
  | nil => intro vOff _ i hi; simp [mergedIndicesSpec] at hi
  | cons g gs ih =>
      intro vOff hwf i hi
      have hTV : totalVertices (g :: gs) = posCount g + totalVertices gs := by
        simp [totalVertices]
      simp only [mergedIndicesSpec, List.mem_append] at hi
      rcases hi with hi | hi
      · have hj : i < vOff + posCount g := by
          cases hg : g.index with
          | none =>
              rw [idxContrib, hg] at hi
              simp only [List.mem_map, List.mem_range] at hi
              obtain ⟨j, hj1, hj2⟩ := hi
              omega
          | some l =>
              rw [idxContrib, hg] at hi
              simp only [List.mem_map] at hi
              obtain ⟨j, hj1, hj2⟩ := hi
              have := (wellFormed_parts (hwf g (by simp))).2.2.2 l hg j hj1
              omega
        omega
      · have := ih (vOff + posCount g) (fun g' hg' => hwf g' (by simp [hg'])) i hi
        omega

theorem totalIndices_append (gs hs : List BufferGeometry) :
    totalIndices (gs ++ hs) = totalIndices gs + totalIndices hs := by
  simp [totalIndices]

theorem totalIndices_mod3 (gs : List BufferGeometry)
    (h : ∀ g ∈ gs, tripleShaped g = true) : totalIndices gs % 3 = 0 := by
  induction gs with
  | nil => simp [totalIndices]
  | cons g gs ih =>
      have h1 : idxCount g % 3 = 0 := by
        have hg0 := h g (by simp)
        cases hg : g.index with
        | some l =>
            rw [tripleShaped, hg] at hg0
            simp only [beq_iff_eq] at hg0
            simpa [idxCount, hg] using hg0
        | none =>
            rw [tripleShaped, hg] at hg0
            simp only [beq_iff_eq] at hg0
            simpa [idxCount, hg] using hg0
      have h2 := ih (fun g' hg' => h g' (by simp [hg']))
      have h3 : totalIndices (g :: gs) = idxCount g + totalIndices gs := by
        simp [totalIndices]
      omega

theorem merge_ok_indices_length (gs : List BufferGeometry) (m : MergedGeometry)
    (hwf : ∀ g ∈ gs, wellFormed g = true) (hok : mergeGeometries gs = .ok m) :
    m.indicesArr.length = totalIndices gs := by
  rw [mergeGeometries_ok gs hwf] at hok
  injection hok with h
  rw [← h]
  exact length_mergedIndicesSpec gs 0

/-- C1: for every sequence of input Mesh Buffers (each carrying a position
attribute, with per-vertex attributes and in-range indices), the merge
engine succeeds and returns a buffer whose vertex count is the sum of the
inputs' vertex counts, and every entry of its index array is strictly
below that summed vertex count. -/
theorem merge_vertex_count_and_index_bounds (gs : List BufferGeometry)
    (hwf : ∀ g ∈ gs, wellFormed g = true) :
    ∃ m, mergeGeometries gs = .ok m ∧
      m.vertexCount = totalVertices gs ∧
      ∀ i ∈ m.indicesArr, i < totalVertices gs := by
  refine ⟨_, mergeGeometries_ok gs hwf, ?_, ?_⟩
  · show (mergedPositionsSpec gs).length / 3 = totalVertices gs
    rw [length_mergedPositionsSpec]
    omega
  · intro i hi
    have := mergedIndicesSpec_bound gs 0 hwf i hi
    omega

theorem merge_vertex_count_and_index_bounds_witness :
    (∀ g ∈ [c1G1, c1G2], wellFormed g = true) ∧
    (∃ m, mergeGeometries [c1G1, c1G2] = .ok m ∧
      m.vertexCount = totalVertices [c1G1, c1G2] ∧
      ∀ i ∈ m.indicesArr, i < totalVertices [c1G1, c1G2]) :=
  ⟨by decide, merge_vertex_count_and_index_bounds [c1G1, c1G2] (by decide)⟩

/-- C2: merging a first input with 4 vertices and 6 indices and a second
input with 3 vertices and no index buffer yields 7 vertices and 9
indices; the first 6 indices equal the first input's indices unshifted
and the last 3 are the sequential run 4, 5, 6. -/
theorem merge_example_scenario :
    ∃ m, mergeGeometries [mergeExampleG1, mergeExampleG2] = .ok m ∧
      m.vertexCount = 7 ∧
      m.indicesArr.length = 9 ∧
      m.indicesArr.take 6 = mergeExampleG1.index.getD [] ∧
      m.indicesArr.drop 6 = [4, 5, 6] ∧
      m.indicesArr = [0, 1, 2, 2, 1, 3, 4, 5, 6] := by
  refine ⟨_, mergeGeometries_ok _ (by decide), ?_, ?_, ?_, ?_, ?_⟩ <;> decide

/-- C3: inputs lacking a normal attribute contribute the default normal
`(0, 1, 0)` for every one of their vertices; inputs lacking a uv
attribute leave their uv slots at zero; inputs carrying normals or uvs
have them copied verbatim. -/
theorem merge_normal_uv_defaults (gs : List BufferGeometry)
    (hwf : ∀ g ∈ gs, wellFormed g = true) :
    ∃ m, mergeGeometries gs = .ok m ∧
      m.normalArr = gs.flatMap
        (fun g => flat3 (g.normal.getD (List.replicate (posCount g) (0, 1, 0)))) ∧
      m.uvArr = gs.flatMap
        (fun g => (g.uv.map flat2).getD (List.replicate (posCount g * 2) 0)) := by
  refine ⟨_, mergeGeometries_ok gs hwf, ?_, ?_⟩
  · show mergedNormalsSpec gs = _
    have hfun : normContrib = fun g =>
        flat3 (g.normal.getD (List.replicate (posCount g) (0, 1, 0))) := by
      funext g
      cases hn : g.normal with
      | none => simp [normContrib, hn, norms3]
      | some nl => simp [normContrib, hn]
    rw [mergedNormalsSpec, hfun]
  · show mergedUvsSpec gs = _
    have hfun : uvContrib = fun g =>
        (g.uv.map flat2).getD (List.replicate (posCount g * 2) 0) := by
      funext g
      cases hu : g.uv with
      | none => simp [uvContrib, hu]
      | some u => simp [uvContrib, hu]
    rw [mergedUvsSpec, hfun]

theorem merge_normal_uv_defaults_witness :
    (∀ g ∈ [c3G1, c3G2], wellFormed g = true) ∧
    (∃ m, mergeGeometries [c3G1, c3G2] = .ok m ∧
      m.normalArr = [c3G1, c3G2].flatMap
        (fun g => flat3 (g.normal.getD (List.replicate (posCount g) (0, 1, 0)))) ∧
      m.uvArr = [c3G1, c3G2].flatMap
        (fun g => (g.uv.map flat2).getD (List.replicate (posCount g * 2) 0))) :=
  ⟨by decide, merge_normal_uv_defaults [c3G1, c3G2] (by decide)⟩

/-- C4: merging the empty sequence returns a valid empty buffer — 0
vertices and 0 indices — and no error. -/
theorem merge_empty_ok :
    mergeGeometries [] = .ok ⟨[], [], [], []⟩ ∧
    (⟨[], [], [], []⟩ : MergedGeometry).vertexCount = 0 ∧
    (⟨[], [], [], []⟩ : MergedGeometry).indicesArr.length = 0 :=
  ⟨rfl, rfl, rfl⟩

/-- C9: an input geometry lacking a position attribute makes the merge
engine fail with an error reported to the caller (the source throws while
reading `geo.attributes.position.count`), never a silently produced
buffer. -/
theorem merge_missing_position_errors (gs : List BufferGeometry)
    (g : BufferGeometry) (hg : g ∈ gs) (hnone : g.position = none) :
    mergeGeometries gs = .error () := by
  have hne : gs.isEmpty = false := by
    cases gs with
    | nil => cases hg
    | cons a l => rfl
  have hall : gs.all (fun g => g.position.isSome) = false := by
    cases hA : gs.all (fun g => g.position.isSome) with
    | false => rfl
    | true =>
        have h1 := List.all_eq_true.mp hA g hg
        rw [hnone] at h1
        simp at h1
  simp [mergeGeometries, hne, hall]

theorem merge_missing_position_errors_witness :
    mergeGeometries [(⟨none, none, none, none⟩ : BufferGeometry)] = .error () :=
  merge_missing_position_errors [⟨none, none, none, none⟩] ⟨none, none, none, none⟩
    (List.mem_singleton.mpr rfl) rfl

/-- C10: if every indexed input's index count and every non-indexed
input's vertex count is a multiple of 3, the merged index count is a
multiple of 3; and appending a non-indexed input whose vertex count is
not a multiple of 3 to such a sequence yields a merged index count that
is not a multiple of 3 (merge performs no check of its own). -/
theorem merge_index_count_triples :
    (∀ (gs : List BufferGeometry) (m : MergedGeometry),
      (∀ g ∈ gs, wellFormed g = true) → (∀ g ∈ gs, tripleShaped g = true) →
      mergeGeometries gs = .ok m → m.indicesArr.length % 3 = 0) ∧
    (∀ (gs : List BufferGeometry) (g : BufferGeometry) (m : MergedGeometry),
      (∀ g' ∈ gs, wellFormed g' = true) → (∀ g' ∈ gs, tripleShaped g' = true) →
      wellFormed g = true → g.index = none → posCount g % 3 ≠ 0 →
      mergeGeometries (gs ++ [g]) = .ok m → m.indicesArr.length % 3 ≠ 0) := by
  constructor
  · intro gs m hwf htr hok
    rw [merge_ok_indices_length gs m hwf hok]
    exact totalIndices_mod3 gs htr
  · intro gs g m hwf htr hwfg hgnone hmod hok
    have hwfall : ∀ g' ∈ gs ++ [g], wellFormed g' = true := by
      intro g' hg'
      rcases List.mem_append.mp hg' with h | h
      · exact hwf g' h
      · simp at h
        subst h
        exact hwfg
    rw [merge_ok_indices_length _ m hwfall hok, totalIndices_append]
    have h1 := totalIndices_mod3 gs htr
    have h2 : totalIndices [g] = posCount g := by
      simp [totalIndices, idxCount, hgnone]
    omega

theorem merge_index_count_triples_witness :
    c10MA.indicesArr.length % 3 = 0 ∧ c10MB.indicesArr.length % 3 ≠ 0 :=
  ⟨merge_index_count_triples.1 [c10G1] c10MA (by decide) (by decide) (by rfl),
   merge_index_count_triples.2 [c10G1] c10G2 c10MB (by decide) (by decide)
     (by decide) rfl (by decide) (by rfl)⟩

/-- C5: the petal assembly places `totalPetals = 22` petals at
`theta_i = i * goldenAngle`; consecutive placement angles differ by
exactly 137.5° in radians, no two of the 22 angles coincide modulo a
full turn, and each petal's yaw is `-theta_i - 90°`. -/
theorem petal_phyllotaxis :
    totalPetals = 22 ∧
    (∀ i : ℕ, petalTheta (i + 1) - petalTheta i = 137.5 * (Real.pi / 180)) ∧
    (∀ i j : ℕ, i < totalPetals → j < totalPetals → i ≠ j →
      ∀ k : ℤ, petalTheta i - petalTheta j ≠ k * (2 * Real.pi)) ∧
    (∀ i : ℕ, petalRotY i = -petalTheta i - 90 * (Real.pi / 180)) := by
  refine ⟨rfl, ?_, ?_, ?_⟩
  · intro i
    simp only [petalTheta, goldenAngle]
    push_cast
    ring
  · intro i j hi hj hne k heq
    have hpi := Real.pi_ne_zero
    have h2 : (((i : ℝ) - j) * 275 - 720 * k) * Real.pi = 0 := by
      simp only [petalTheta, goldenAngle] at heq
      linear_combination (360 : ℝ) * heq
    have h3 : ((i : ℝ) - j) * 275 - 720 * (k : ℝ) = 0 := by
      rcases mul_eq_zero.mp h2 with h | h
      · exact h
      · exact absurd h hpi
    have h4 : ((i : ℤ) - j) * 275 - 720 * k = 0 := by exact_mod_cast h3
    rw [totalPetals] at hi hj
    omega
  · intro i
    simp only [petalRotY]
    ring

theorem petal_phyllotaxis_witness :
    (0 : ℕ) < totalPetals ∧ (1 : ℕ) < totalPetals ∧ (0 : ℕ) ≠ 1 ∧
    petalTheta 0 - petalTheta 1 ≠ (0 : ℤ) * (2 * Real.pi) :=
  ⟨by decide, by decide, by decide,
   petal_phyllotaxis.2.2.1 0 1 (by decide) (by decide) (by decide) 0⟩

/-- C8: for every thorn index below `thornCount` and any jitter whatever,
the clamped placement parameter stays inside `[0.12, 0.99]`. -/
theorem thorn_param_clamped (i : ℕ) (_hi : i < thornCount) (jitter : ℚ) :
    0.12 ≤ thornT i jitter ∧ thornT i jitter ≤ 0.99 := by
  unfold thornT
  exact ⟨le_max_left _ _, max_le (by norm_num) (min_le_left _ _)⟩

theorem thorn_param_clamped_witness :
    (3 : ℕ) < thornCount ∧ (0.12 ≤ thornT 3 5 ∧ thornT 3 5 ≤ 0.99) :=
  ⟨by decide, thorn_param_clamped 3 (by decide) 5⟩

/-- C6: the petal width envelope is 0 at `v = 0`, nonnegative on `[0, 1]`,
positive and bounded by 1 on `(0, 0.857)`, and decreases monotonically —
heads back toward 0 — on `[10/17, 1]` (the argument of the sine passes
`π/2` at `v = 10/17` and the `min` factor is saturated at 1 there). -/
theorem petal_width_envelope :
    shapeWidth 0 = 0 ∧
    (∀ v : ℝ, 0 ≤ v → v ≤ 1 → 0 ≤ shapeWidth v) ∧
    (∀ v : ℝ, 0 < v → v < 0.857 → 0 < shapeWidth v ∧ shapeWidth v ≤ 1) ∧
    (∀ v₁ v₂ : ℝ, 10 / 17 ≤ v₁ → v₁ ≤ v₂ → v₂ ≤ 1 →
      shapeWidth v₂ ≤ shapeWidth v₁) := by
  have hpi := Real.pi_pos
  refine ⟨?_, ?_, ?_, ?_⟩
  · unfold shapeWidth
    norm_num
  · intro v h0v hv1
    unfold shapeWidth
    apply mul_nonneg
    · exact Real.rpow_nonneg (le_max_left 0 _) _
    · exact le_min (by norm_num) (by nlinarith)
  · intro v h0v hv
    have harg1 : 0 < v * Real.pi * 0.85 := by
      have := mul_pos h0v hpi
      nlinarith
    have harg2 : v * Real.pi * 0.85 < Real.pi := by
      nlinarith [mul_pos hpi (show (0 : ℝ) < 1 - v * 0.85 by nlinarith)]
    have hsin : 0 < Real.sin (v * Real.pi * 0.85) :=
      Real.sin_pos_of_pos_of_lt_pi harg1 harg2
    have hmax : max 0 (Real.sin (v * Real.pi * 0.85))
        = Real.sin (v * Real.pi * 0.85) := max_eq_right hsin.le
    constructor
    · unfold shapeWidth
      apply mul_pos
      · rw [hmax]
        exact Real.rpow_pos_of_pos hsin _
      · exact lt_min (by norm_num) (by nlinarith)
    · unfold shapeWidth
      apply mul_le_one₀
      · exact Real.rpow_le_one (le_max_left 0 _)
          (max_le (by norm_num) (Real.sin_le_one _)) (by norm_num)
      · exact le_min (by norm_num) (by nlinarith)
      · exact min_le_left _ _
  · intro v1 v2 h1 h12 h21
    have hm1 : min 1 (v1 * 3.5) = 1 := min_eq_left (by nlinarith)
    have hm2 : min 1 (v2 * 3.5) = 1 := min_eq_left (by nlinarith)
    have hsin : Real.sin (v2 * Real.pi * 0.85) ≤ Real.sin (v1 * Real.pi * 0.85) := by
      have e : ∀ a : ℝ, Real.sin a = Real.cos (a - Real.pi / 2) := by
        intro a
        rw [show a - Real.pi / 2 = -(Real.pi / 2 - a) by ring, Real.cos_neg,
          Real.cos_pi_div_two_sub]
      rw [e, e]
      apply Real.cos_le_cos_of_nonneg_of_le_pi
      · nlinarith
      · nlinarith
      · nlinarith
    unfold shapeWidth
    rw [hm1, hm2, mul_one, mul_one]
    exact Real.rpow_le_rpow (le_max_left 0 _) (max_le_max le_rfl hsin) (by norm_num)

theorem petal_width_envelope_witness :
    ((0 : ℝ) ≤ 1 / 2 ∧ (1 / 2 : ℝ) ≤ 1 ∧ 0 ≤ shapeWidth (1 / 2)) ∧
    ((0 : ℝ) < 1 / 2 ∧ (1 / 2 : ℝ) < 0.857 ∧
      0 < shapeWidth (1 / 2) ∧ shapeWidth (1 / 2) ≤ 1) ∧
    ((10 / 17 : ℝ) ≤ 0.7 ∧ (0.7 : ℝ) ≤ 0.9 ∧ (0.9 : ℝ) ≤ 1 ∧
      shapeWidth 0.9 ≤ shapeWidth 0.7) :=
  ⟨⟨by norm_num, by norm_num,
     petal_width_envelope.2.1 (1 / 2) (by norm_num) (by norm_num)⟩,
   ⟨by norm_num, by norm_num,
     (petal_width_envelope.2.2.1 (1 / 2) (by norm_num) (by norm_num)).1,
     (petal_width_envelope.2.2.1 (1 / 2) (by norm_num) (by norm_num)).2⟩,
   ⟨by norm_num, by norm_num, by norm_num,
     petal_width_envelope.2.2.2 0.7 0.9 (by norm_num) (by norm_num) (by norm_num)⟩⟩

theorem normalizeV_of_unit (v : Vec3) (h : dotV v v = 1) : normalizeV v = v := by
  unfold normalizeV lengthV
  rw [h, Real.sqrt_one]
  simp

/-- C7: invoked with the tangent equal to the world-up axis, the frame
construction substitutes the secondary world axis for the reference up
vector, and for every rotation angle the resulting basis
`(x̂, ŷ, ẑ) = thornFrame` is orthonormal: pairwise orthogonal axes of
unit length. -/
theorem thorn_frame_orthonormal (angle : ℝ) :
    thornUp ⟨0, 1, 0⟩ = ⟨0, 0, 1⟩ ∧
    dotV (thornFrame ⟨0, 1, 0⟩ angle).1 (thornFrame ⟨0, 1, 0⟩ angle).2.1 = 0 ∧
    dotV (thornFrame ⟨0, 1, 0⟩ angle).1 (thornFrame ⟨0, 1, 0⟩ angle).2.2 = 0 ∧
    dotV (thornFrame ⟨0, 1, 0⟩ angle).2.1 (thornFrame ⟨0, 1, 0⟩ angle).2.2 = 0 ∧
    dotV (thornFrame ⟨0, 1, 0⟩ angle).1 (thornFrame ⟨0, 1, 0⟩ angle).1 = 1 ∧
    dotV (thornFrame ⟨0, 1, 0⟩ angle).2.1 (thornFrame ⟨0, 1, 0⟩ angle).2.1 = 1 ∧
    dotV (thornFrame ⟨0, 1, 0⟩ angle).2.2 (thornFrame ⟨0, 1, 0⟩ angle).2.2 = 1 := by
  have hs := Real.sin_sq_add_cos_sq (angle / 2)
  set s := Real.sin (angle / 2) with hsdef
  set c := Real.cos (angle / 2) with hcdef
  have hfix : fixTangent ⟨0, 1, 0⟩ = ⟨0, 1, 0⟩ := by
    unfold fixTangent
    rw [if_neg]
    simp [dotV]
    norm_num
  have hup : thornUp ⟨0, 1, 0⟩ = ⟨0, 0, 1⟩ := by
    unfold thornUp
    rw [if_pos]
    simp
    norm_num
  have hbin : thornBinormal ⟨0, 1, 0⟩ = ⟨1, 0, 0⟩ := by
    unfold thornBinormal
    rw [hfix, hup]
    rw [show crossV ⟨0, 1, 0⟩ ⟨0, 0, 1⟩ = ⟨1, 0, 0⟩ from by
      apply Vec3.ext <;> simp [crossV]]
    exact normalizeV_of_unit _ (by simp [dotV])
  have happ : applyAxisAngle ⟨1, 0, 0⟩ ⟨0, 1, 0⟩ angle
      = ⟨1 - 2 * s ^ 2, 0, -(2 * s * c)⟩ := by
    unfold applyAxisAngle applyQuaternion setFromAxisAngle
    apply Vec3.ext <;> (dsimp; ring)
  have hnorm : thornNormal ⟨0, 1, 0⟩ angle = ⟨1 - 2 * s ^ 2, 0, -(2 * s * c)⟩ := by
    unfold thornNormal
    rw [hbin, hfix, happ]
    exact normalizeV_of_unit _ (by simp [dotV]; nlinarith [hs])
  have hx : thornXAxis ⟨0, 1, 0⟩ angle = ⟨-(2 * s * c), 0, 2 * s ^ 2 - 1⟩ := by
    unfold thornXAxis
    rw [hnorm, hfix]
    rw [show crossV ⟨1 - 2 * s ^ 2, 0, -(2 * s * c)⟩
        ⟨-(⟨0, 1, 0⟩ : Vec3).x, -(⟨0, 1, 0⟩ : Vec3).y, -(⟨0, 1, 0⟩ : Vec3).z⟩
        = ⟨-(2 * s * c), 0, 2 * s ^ 2 - 1⟩ from by
      apply Vec3.ext <;> (simp [crossV]; try ring)]
    exact normalizeV_of_unit _ (by simp [dotV]; nlinarith [hs])
  have hz : thornZAxis ⟨0, 1, 0⟩ angle = ⟨0, -1, 0⟩ := by
    unfold thornZAxis
    rw [hx, hnorm]
    rw [show crossV ⟨-(2 * s * c), 0, 2 * s ^ 2 - 1⟩ ⟨1 - 2 * s ^ 2, 0, -(2 * s * c)⟩
        = ⟨0, -1, 0⟩ from by
      apply Vec3.ext <;> (simp [crossV]; try nlinarith [hs])]
    exact normalizeV_of_unit _ (by simp [dotV])
  unfold thornFrame
  refine ⟨hup, ?_, ?_, ?_, ?_, ?_, ?_⟩ <;> rw [hx, hnorm, hz] <;> simp [dotV] <;>
    try nlinarith [hs]
